import Mathlib

/-!
Verification development for the thread-stack metadata index and search engine.

Shallow embedding of the TypeScript sources:
* src/index-manager.ts   (IndexManager: load, save, isStale, rebuild, update,
                          query, invalidate, addNoteToIndex, rebuildTagCounts)
* src/scanner.ts         (ZoneScanner: loadNote, search, listByTags,
                          scoreNoteEnhanced, getZoneFromPath)
* src/zones.ts           (Zone, zone configuration)

Conventions of the embedding:
* JavaScript numbers holding timestamps (epoch milliseconds) are `Int`;
  scores, which mix integers with a fractional recency term, are `ℚ`.
* JavaScript strings are Lean `String`s; the character-level helpers below
  (lowering, substring containment, whitespace splitting, occurrence
  counting) model the ASCII behaviour of `toLowerCase`, `includes`,
  `split(/\s+/)` and global literal regex matching.
* A JavaScript object used as a string-keyed map (the tag-count map, the
  on-disk contents) is an association list; the first binding for a key wins.
* File-system effects are explicit: reads are parameters, writes are values
  (a trace of operations, or a list of written paths).
-/

/-! ## Zones (src/zones.ts) -/

/-- The zone enumeration from src/zones.ts. -/
inductive Zone where
  | scratchpad
  | inbox
  | notes
  | daily
  | maps
  | archive
deriving DecidableEq, Repr

/-- The zoneBoost table of DEFAULT_SCORING_WEIGHTS in src/scanner.ts. -/
def zoneBoost : Zone → ℚ
  | .notes => 5
  | .daily => 3
  | .inbox => 1
  | .archive => 0
  | .scratchpad => 2
  | .maps => 4

/-! ## Data model (src/types.ts, src/index-manager.ts) -/

/-- One record of the on-disk index: NoteMetadata plus the modification
fingerprint mtime (field mtime of the records in MetadataIndex.notes). -/
structure NoteRec where
  path : String
  title : String
  tags : List String
  created : Int
  modified : Int
  wordCount : Nat
  hasActionables : Bool
  linkedIssues : List String
  linkedNotes : List String
  mtime : Int
deriving DecidableEq, Repr

/-- NoteMetadata as returned by IndexManager.query and IndexManager.get:
a NoteRec with the mtime fingerprint stripped. -/
structure NoteMeta where
  path : String
  title : String
  tags : List String
  created : Int
  modified : Int
  wordCount : Nat
  hasActionables : Bool
  linkedIssues : List String
  linkedNotes : List String
deriving DecidableEq, Repr

/-- Dropping the mtime field, as in the destructurings
`const (mtime, ...metadata) = note` of index-manager.ts. -/
def stripMtime (n : NoteRec) : NoteMeta :=
  { path := n.path, title := n.title, tags := n.tags, created := n.created,
    modified := n.modified, wordCount := n.wordCount,
    hasActionables := n.hasActionables, linkedIssues := n.linkedIssues,
    linkedNotes := n.linkedNotes }

/-- The in-memory/on-disk MetadataIndex of index-manager.ts.  The tag-count
object is an association list from tag name to usage count; lastUpdated is
not tracked (no claim depends on it). -/
structure MetadataIndex where
  version : Nat
  notes : List NoteRec
  tags : List (String × Nat)
deriving DecidableEq, Repr

/-- The empty index created by IndexManager.load on ENOENT and used as the
starting point of IndexManager.rebuild. -/
def emptyIndex : MetadataIndex := { version := 1, notes := [], tags := [] }

/-- Reading a count from the tag map: `index.tags[tag] || 0`. -/
def tagCount (m : List (String × Nat)) (t : String) : Nat :=
  ((m.lookup t).getD 0)

/-- The assignment `index.tags[tag] = (index.tags[tag] || 0) + 1`:
bump an existing binding in place, or append a fresh binding of 1
(JavaScript objects keep insertion order). -/
def tagBump : List (String × Nat) → String → List (String × Nat)
  | [], t => [(t, 1)]
  | (k, v) :: rest, t =>
    if k = t then (k, v + 1) :: rest else (k, v) :: tagBump rest t

/-! ## IndexManager mutations (src/index-manager.ts)

addNoteToIndex reads and parses the file; the embedding receives the
resulting record (parsed metadata plus the stat fingerprint) as input. -/

/-- IndexManager.addNoteToIndex: push the record and bump a tag count for
every tag of the record. -/
def IndexManager.addNoteToIndex (idx : MetadataIndex) (rec : NoteRec) : MetadataIndex :=
  { idx with
    notes := idx.notes ++ [rec],
    tags := rec.tags.foldl tagBump idx.tags }

/-- IndexManager.rebuild: fold addNoteToIndex over the scanned files
(in scan order) starting from a fresh empty index. -/
def IndexManager.rebuild (entries : List NoteRec) : MetadataIndex :=
  entries.foldl IndexManager.addNoteToIndex emptyIndex

/-- IndexManager.update(notePath): drop the existing record for the path,
then addNoteToIndex the freshly parsed record (rec).  Note the source never
touches the tag counts of the dropped record. -/
def IndexManager.update (idx : MetadataIndex) (notePath : String) (rec : NoteRec) : MetadataIndex :=
  IndexManager.addNoteToIndex
    { idx with notes := idx.notes.filter (fun n => n.path ≠ notePath) }
    rec

/-- IndexManager.rebuildTagCounts: recompute the tag map from the current
records. -/
def IndexManager.rebuildTagCounts (idx : MetadataIndex) : MetadataIndex :=
  { idx with
    tags := idx.notes.foldl (fun m n => n.tags.foldl tagBump m) [] }

/-- IndexManager.invalidate(paths): batch-remove the records, and only when
something was removed rebuild the tag counts (and persist). -/
def IndexManager.invalidate (idx : MetadataIndex) (paths : List String) : MetadataIndex :=
  let remaining := idx.notes.filter (fun n => ¬ paths.contains n.path)
  if remaining.length ≠ idx.notes.length then
    IndexManager.rebuildTagCounts { idx with notes := remaining }
  else
    { idx with notes := remaining }

/-- The tag-count invariant claimed by the spec: every count in the tag map
equals the number of occurrences of that tag across the current records. -/
def tagInvariant (idx : MetadataIndex) : Prop :=
  ∀ t, tagCount idx.tags t = (idx.notes.map (fun n => n.tags.count t)).sum

/-! ## Persistence trace (IndexManager.save, src/index-manager.ts lines 80-94)

The save method is embedded as the trace of file-system operations it
performs.  A write of a string is not atomic: while it is in flight a reader
of the written path can observe any prefix of the new contents.  A rename is
atomic: a reader observes either the old or the complete new contents. -/

/-- A file-system operation. -/
inductive FsOp where
  | write (path content : String)
  | rename (src dst : String)
deriving DecidableEq, Repr

/-- The operations IndexManager.save actually performs: it writes the
serialized index to the temporary path, and then writes the serialized index
directly to the canonical path a second time (there is no rename, despite
the comments in the source). -/
def IndexManager.saveOps (indexPath serialized : String) : List FsOp :=
  [FsOp.write (indexPath ++ ".tmp") serialized,
   FsOp.write indexPath serialized]

/-- The persistence the specification describes: write the serialized index
to the temporary path and then atomically rename it over the canonical path.
Kept for comparison with IndexManager.saveOps. -/
def specAtomicSaveOps (indexPath serialized : String) : List FsOp :=
  [FsOp.write (indexPath ++ ".tmp") serialized,
   FsOp.rename (indexPath ++ ".tmp") indexPath]

/-- The disk: an association list path → contents, first binding wins;
a path with no binding reads as the empty string. -/
def diskGet (d : List (String × String)) (p : String) : String :=
  ((d.lookup p).getD "")

/-- Updating the disk after an operation completes. -/
def applyFsOp (d : List (String × String)) : FsOp → List (String × String)
  | .write p c => (p, c) :: d
  | .rename src dst => (dst, diskGet d src) :: d

/-- All prefixes of a string, the states a path runs through while a
non-atomic write to it is in flight. -/
def stringStages (c : String) : List String :=
  (List.range (c.length + 1)).map (fun k => ⟨c.data.take k⟩)

/-- The contents a reader of path watched can observe while one operation
executes, given the disk before the operation. -/
def fsOpViews (watched : String) (d : List (String × String)) : FsOp → List String
  | .write p c =>
    if p = watched then stringStages c else [diskGet d watched]
  | .rename src dst =>
    if dst = watched then [diskGet d watched, diskGet d src]
    else [diskGet d watched]

/-- Every contents a reader of watched can observe while the trace runs,
including the final state. -/
def traceViews (watched : String) : List FsOp → List (String × String) → List String
  | [], d => [diskGet d watched]
  | op :: rest, d => fsOpViews watched d op ++ traceViews watched rest (applyFsOp d op)

/-- Atomic replacement of watched by a trace: a concurrent reader only ever
observes the initial contents or the final contents, never a partially
written state. -/
def atomicFor (watched : String) (ops : List FsOp) (d : List (String × String))
    (final : String) : Prop :=
  ∀ c ∈ traceViews watched ops d, c = diskGet d watched ∨ c = final

/-! ## Index load (IndexManager.load, src/index-manager.ts lines 43-75)

The on-disk index file is either absent (readFile raises ENOENT) or
present, in which case JSON.parse of its bytes either yields an index or
raises; the embedding carries the parse outcome.  The source catches the
error, returns the empty index only when error.code is ENOENT, and
re-throws every other error, including parse failures. -/

/-- The on-disk index file as IndexManager.load sees it. -/
inductive IndexFile where
  | absent
  | present (parsed : Except String MetadataIndex)

/-- IndexManager.load as a fallible function from the state of the on-disk
file.  An error value is an exception that reaches the caller. -/
def IndexManager.load : IndexFile → Except String MetadataIndex
  | .absent => .ok emptyIndex
  | .present (.ok idx) => .ok idx
  | .present (.error e) => .error e

/-! ## String helpers

Character-level models of the JavaScript string primitives the scanner
uses.  They are structurally recursive so that concrete runs reduce inside
the kernel. -/

/-- Does the first list of characters lead the second one (needle starts
the text)?  Models the anchored comparison behind `String.includes`. -/
def leadsWith : List Char → List Char → Bool
  | [], _ => true
  | _ :: _, [] => false
  | c :: cs, d :: ds => c = d && leadsWith cs ds

/-- Does the text contain the needle anywhere?  Models s.includes(sub). -/
def containsSub (text needle : List Char) : Bool :=
  match text with
  | [] => needle.isEmpty
  | _ :: rest => leadsWith needle text || containsSub rest needle

/-- String form of containsSub: s.includes(sub). -/
def strIncludes (s sub : String) : Bool :=
  containsSub s.data sub.data

/-- ASCII model of s.toLowerCase(). -/
def lowerStr (s : String) : String :=
  ⟨s.data.map Char.toLower⟩

/-- One step of splitting on runs of whitespace.  The second argument is
some acc while a token acc (reversed) is being accumulated, and none while
a whitespace run is being skipped (its token has been emitted). -/
def splitWsGo : List Char → Option (List Char) → List (List Char)
  | [], some acc => [acc.reverse]
  | [], none => [[]]
  | c :: rest, some acc =>
    if c.isWhitespace then acc.reverse :: splitWsGo rest none
    else splitWsGo rest (some (c :: acc))
  | c :: rest, none =>
    if c.isWhitespace then splitWsGo rest none
    else splitWsGo rest (some [c])

/-- Model of the JavaScript split on a whitespace run: maximal whitespace
runs separate tokens, with an empty leading/trailing token when the string
starts/ends with whitespace (ASCII whitespace model). -/
def splitWs (s : String) : List String :=
  (splitWsGo s.data (some [])).map (fun cs => ⟨cs⟩)

/-- Characters of the first blank-line-delimited paragraph: everything
before the first occurrence of two consecutive newlines. -/
def firstParaChars : List Char → List Char
  | [] => []
  | c :: rest =>
    if leadsWith ['\n', '\n'] (c :: rest) then []
    else c :: firstParaChars rest

/-- Model of content.split two-newlines, index 0. -/
def firstParagraphOf (s : String) : String :=
  ⟨firstParaChars s.data⟩

/-- Fuelled counter of non-overlapping occurrences of the needle in the
text, the length of a global literal regex match.  The fuel starts at the
text length, which always suffices since every step consumes at least one
character. -/
def countOccAux (needle : List Char) : List Char → Nat → Nat
  | _, 0 => 0
  | text, fuel + 1 =>
    match text with
    | [] => 0
    | _ :: rest =>
      if needle ≠ [] ∧ leadsWith needle text then
        1 + countOccAux needle (text.drop needle.length) fuel
      else
        countOccAux needle rest fuel

/-- Number of non-overlapping occurrences of needle in text. -/
def countOccurrences (text needle : List Char) : Nat :=
  countOccAux needle text text.length

/-- The max of Math.max on scores, written with an if so that concrete
rational instances reduce. -/
def ratMax (a b : ℚ) : ℚ := if a ≤ b then b else a

/-! ## IndexManager.query (src/index-manager.ts lines 258-306) -/

/-- The options bag of IndexManager.query. -/
structure QueryOptions where
  zones : Option (List Zone) := none
  tags : Option (List String) := none
  dateFrom : Option Int := none
  dateTo : Option Int := none
  limit : Option Nat := none

/-- String name of a zone as used in path patterns. -/
def zoneName : Zone → String
  | .scratchpad => "scratchpad"
  | .inbox => "inbox"
  | .notes => "notes"
  | .daily => "daily"
  | .maps => "maps"
  | .archive => "archive"

/-- The per-zone path pattern of IndexManager.query: the scratchpad zone
matches the single scratch file, every other zone matches its directory
followed by a slash. -/
def zonePattern : Zone → String
  | .scratchpad => "scratch.md"
  | z => zoneName z ++ "/"

/-- IndexManager.query: filter a copy of the records by zone pattern, tag
(all-of), and created-date range, sort by modified descending, apply the
positive limit, and strip the fingerprints. -/
def IndexManager.query (idx : MetadataIndex) (opts : QueryOptions) : List NoteMeta :=
  let r1 : List NoteRec :=
    match opts.zones with
    | none => idx.notes
    | some zs =>
      idx.notes.filter (fun n =>
        (zs.map zonePattern).any (fun pat => strIncludes n.path pat))
  let r2 : List NoteRec :=
    match opts.tags with
    | some ts =>
      if 0 < ts.length then
        r1.filter (fun n => ts.all (fun t => n.tags.contains t))
      else r1
    | none => r1
  let r3 : List NoteRec :=
    match opts.dateFrom with
    | some t => r2.filter (fun n => t ≤ n.created)
    | none => r2
  let r4 : List NoteRec :=
    match opts.dateTo with
    | some t => r3.filter (fun n => n.created ≤ t)
    | none => r3
  let r5 := r4.mergeSort (fun a b => b.modified ≤ a.modified)
  let r6 :=
    match opts.limit with
    | some l => if 0 < l then r5.take l else r5
    | none => r5
  r6.map stripMtime

/-- The uniform effect of a stateful IndexManager method: its return value,
the in-memory index afterwards, and the paths it wrote on disk. -/
structure OpEffect (α : Type) where
  output : α
  index : MetadataIndex
  writes : List String
deriving Repr

/-- The canonical index file name (joined to the base path in the source). -/
def indexFileName : String := ".thread-stack-index.json"

/-- The disk paths one call of IndexManager.save touches. -/
def saveWrites : List String := [indexFileName ++ ".tmp", indexFileName]

/-- IndexManager.query as a stateful method: it computes its result from
the loaded index and performs no mutation and no save. -/
def IndexManager.queryOp (idx : MetadataIndex) (opts : QueryOptions) :
    OpEffect (List NoteMeta) :=
  { output := IndexManager.query idx opts, index := idx, writes := [] }

/-- IndexManager.update as a stateful method: it mutates the index and
persists it. -/
def IndexManager.updateOp (idx : MetadataIndex) (notePath : String) (rec : NoteRec) :
    OpEffect Unit :=
  { output := (), index := IndexManager.update idx notePath rec, writes := saveWrites }

/-! ## Staleness (IndexManager.isStale, src/index-manager.ts lines 99-156)

The corpus is the file system as the glob walks see it: the optional single
scratch file and the file lists of the directory zones, each file carried
as its parsed record (whose mtime field is the current modification
time).  Both isStale and rebuild iterate the same zone list
[scratchpad, inbox, notes, daily, maps]; the archive zone is not scanned
by either. -/

/-- The file system under the corpus root, one field per scanned zone tree
plus the unscanned archive tree. -/
structure Corpus where
  scratchpad : Option NoteRec
  inbox : List NoteRec
  notes : List NoteRec
  daily : List NoteRec
  maps : List NoteRec
  archive : List NoteRec
deriving Repr

/-- The files the rebuild walk visits, in its zone order. -/
def scannedEntries (c : Corpus) : List NoteRec :=
  (match c.scratchpad with
   | some r => [r]
   | none => []) ++ c.inbox ++ c.notes ++ c.daily ++ c.maps

/-- IndexManager.rebuild driven by a corpus walk. -/
def IndexManager.rebuildFrom (c : Corpus) : MetadataIndex :=
  IndexManager.rebuild (scannedEntries c)

/-- IndexManager.isStale: true when the loaded index has no notes, else
true as soon as some scanned file is newer than the own modification
time of the index file (indexMtime), iterating the zones in source order. -/
def IndexManager.isStale (idx : MetadataIndex) (c : Corpus) (indexMtime : Int) : Bool :=
  if idx.notes.length = 0 then true
  else
    (match c.scratchpad with
     | some r => decide (indexMtime < r.mtime)
     | none => false)
    || c.inbox.any (fun r => decide (indexMtime < r.mtime))
    || c.notes.any (fun r => decide (indexMtime < r.mtime))
    || c.daily.any (fun r => decide (indexMtime < r.mtime))
    || c.maps.any (fun r => decide (indexMtime < r.mtime))

/-! ## ZoneScanner.listByTags (src/scanner.ts lines 321-353) -/

/-- The matchMode parameter of listByTags. -/
inductive MatchMode where
  | anyOf
  | allOf
deriving DecidableEq, Repr

/-- The sortBy parameter of listByTags. -/
inductive SortKey where
  | created
  | modified
  | title
deriving DecidableEq, Repr

/-- The comparator listByTags sorts with: created and modified descending,
title ascending. -/
def sortKeyLe (sb : SortKey) (a b : NoteMeta) : Bool :=
  match sb with
  | .created => decide (b.created ≤ a.created)
  | .title => decide (a.title ≤ b.title)
  | .modified => decide (b.modified ≤ a.modified)

/-- ZoneScanner.listByTags over the scanned metadata: keep the records
whose tag set matches every query tag (all mode) or some query tag (any
mode), then sort by the requested key. -/
def ZoneScanner.listByTags (metadata : List NoteMeta) (tags : List String)
    (mode : MatchMode) (sb : SortKey) : List NoteMeta :=
  (metadata.filter (fun note =>
    match mode with
    | .allOf => tags.all (fun t => note.tags.contains t)
    | .anyOf => tags.any (fun t => note.tags.contains t))).mergeSort (sortKeyLe sb)

/-! ## Scoring (ZoneScanner.scoreNoteEnhanced, src/scanner.ts lines 643-704) -/

/-- A fully parsed note as the scanner sees it (src/types.ts Note). -/
structure Note where
  path : String
  title : String
  content : String
  tags : List String
  links : List String
  created : Int
  modified : Int
deriving DecidableEq, Repr

/-- The options bag of ZoneScanner.search (ZoneSearchOptions). -/
structure ZoneSearchOptions where
  query : Option String := none
  tags : Option (List String) := none
  zones : Option (List Zone) := none
  dateFrom : Option Int := none
  dateTo : Option Int := none
  limit : Option Nat := none

/-- ZoneScanner.getZoneFromPath: dispatch on the first path segment, fall
back to a scratchpad substring test, default to notes. -/
def ZoneScanner.getZoneFromPath (path : String) : Zone :=
  let firstPart : String := ⟨path.data.takeWhile (fun c => c ≠ '/')⟩
  if firstPart = "notes" then .notes
  else if firstPart = "daily" then .daily
  else if firstPart = "inbox" then .inbox
  else if firstPart = "archive" then .archive
  else if firstPart = "maps" then .maps
  else if strIncludes path "scratchpad" then .scratchpad
  else .notes

/-- The 30-day recency window in milliseconds. -/
def maxAgeMs : ℚ := 30 * 24 * 60 * 60 * 1000

/-- The recency term of the scoring weights: recencyBoost (10) times the
age multiplier clamped at zero. -/
def recencyScore (now modified : Int) : ℚ :=
  10 * ratMax 0 (1 - ((now - modified : Int) : ℚ) / maxAgeMs)

/-- The title component of scoreNoteEnhanced (lines 662-677 of the method):
200 for an exact lowercase match, otherwise, when the lowered title
contains the lowered query, 50 per query word that occurs verbatim among
the title words, or half of 50 when no whole word matches. -/
def titleScoreOf (titleLower queryLower : String) : ℚ :=
  if titleLower = queryLower then 200
  else if strIncludes titleLower queryLower then
    let titleWords := splitWs titleLower
    let queryWords := splitWs queryLower
    let wordMatches := queryWords.filter (fun qw => titleWords.contains qw)
    if 0 < wordMatches.length then (wordMatches.length : ℚ) * 50 else 50 / 2
  else 0

/-- The content component of scoreNoteEnhanced (lines 679-691): when the
lowered content contains the lowered query, occurrences inside the first
paragraph weigh 5 each and every other occurrence weighs 1. -/
def contentScoreOf (content : String) (queryLower : String) : ℚ :=
  let contentLower := lowerStr content
  if strIncludes contentLower queryLower then
    let occurrences := countOccurrences contentLower.data queryLower.data
    let firstParagraph := lowerStr (firstParagraphOf content)
    let fpMatches := countOccurrences firstParagraph.data queryLower.data
    (fpMatches : ℚ) * 5 + ((occurrences : ℚ) - (fpMatches : ℚ)) * 1
  else 0

/-- The exact-tag component of scoreNoteEnhanced (lines 655-659): the
explicitly requested tags present on the note, worth 20 each. -/
def matchedTagsOf (noteTags : List String) (optTags : Option (List String)) : List String :=
  match optTags with
  | some ts => if 0 < ts.length then ts.filter (fun t => noteTags.contains t) else []
  | none => []

/-- ZoneScanner.scoreNoteEnhanced: the full-content score of one note for
a query, together with the matched requested tags.  Returns zero without a
query.  now is the Date.now() the recency term reads. -/
def ZoneScanner.scoreNoteEnhanced (now : Int) (note : Note)
    (opts : ZoneSearchOptions) : ℚ × List String :=
  match opts.query with
  | none => (0, [])
  | some query =>
    let queryLower := lowerStr query
    let matchedTags := matchedTagsOf note.tags opts.tags
    let tagScore : ℚ := (matchedTags.length : ℚ) * 20
    let titleScore := titleScoreOf (lowerStr note.title) queryLower
    let contentScore := contentScoreOf note.content queryLower
    let zoneScore := zoneBoost (ZoneScanner.getZoneFromPath note.path)
    let recency := recencyScore now note.modified
    (tagScore + titleScore + contentScore + zoneScore + recency, matchedTags)

/-! ## The query-present search loop
(ZoneScanner.search, src/scanner.ts lines 244-277)

The loop walks the pre-ordered candidates, loads and scores each one, keeps
the positive scores sorted descending, and exits either when the kept
results fill the limit with a worst score at or above the confidence
threshold, or unconditionally once the processed count reaches
min(candidate count, limit times 3).  The embedding keeps the scores of
the kept results; a candidate is represented by the score
scoreNoteEnhanced assigns it. -/

/-- The CONFIDENCE_THRESHOLD constant of src/scanner.ts. -/
def confidenceThreshold : ℚ := 25

/-- Insert a score into a descending-sorted list, the effect on the score
list of push followed by sort descending. -/
def insertDesc (s : ℚ) : List ℚ → List ℚ
  | [] => [s]
  | x :: xs => if s ≤ x then x :: insertDesc s xs else s :: x :: xs

/-- The candidate loop of ZoneScanner.search.  total is the candidate count
fixed before the loop; the accumulated state is the descending score list
of kept results and the processed count. -/
def ZoneScanner.searchGo (limit total : Nat) :
    List ℚ → List ℚ → Nat → List ℚ × Nat
  | [], results, processed => (results, processed)
  | s :: rest, results, processed =>
    let processed' := processed + 1
    let results' := if 0 < s then insertDesc s results else results
    if 0 < s ∧ limit ≤ results'.length ∧
        confidenceThreshold ≤ results'.getD (limit - 1) 0 then
      (results', processed')
    else if min total (limit * 3) ≤ processed' then
      (results', processed')
    else
      ZoneScanner.searchGo limit total rest results' processed'

/-- The number of candidates the search loop processes (loads and scores)
before stopping, for the given candidate scores and resolved limit. -/
def ZoneScanner.searchProcessedCount (scores : List ℚ) (limit : Nat) : Nat :=
  (ZoneScanner.searchGo limit scores.length scores [] 0).2

/-! ## Streaming search (ZoneScanner.searchStreaming)

Modelled from the spec: the searchStreaming generator itself is not among
the sources, only its callers (src/index.ts) and its tests
(src/__tests__/streaming.test.ts) are.  Per the spec it runs the identical
filtering/scoring pipeline, yields results in caller-specified batch
sizes, reports per batch the batch index, the items, a has-more flag and
the running totals of found results and processed candidates, and applies
the limit-driven early-exit rule of the batch search per batch.  As in the
search loop, a candidate is represented by its score and a result by the
score it was kept with. -/

/-- One yielded batch of the streaming search. -/
structure StreamBatch where
  batch : Nat
  results : List ℚ
  hasMore : Bool
  totalFound : Nat
  totalProcessed : Nat
deriving Repr

/-- The streaming candidate loop.  buffer holds the hits of the batch being
assembled, found and processed the running totals, batchIdx the 1-based
index of the next batch.  A batch is yielded when the buffer reaches the
batch size; reaching the limit yields the final batch and stops. -/
def ZoneScanner.streamGo (limit batchSize : Nat) :
    List ℚ → List ℚ → Nat → Nat → Nat → List StreamBatch
  | [], buffer, found, processed, batchIdx =>
    if buffer.isEmpty then []
    else [{ batch := batchIdx, results := buffer, hasMore := false,
            totalFound := found, totalProcessed := processed }]
  | s :: rest, buffer, found, processed, batchIdx =>
    let processed' := processed + 1
    if 0 < s then
      let buffer' := buffer ++ [s]
      let found' := found + 1
      if limit ≤ found' then
        [{ batch := batchIdx, results := buffer', hasMore := false,
           totalFound := found', totalProcessed := processed' }]
      else if batchSize ≤ buffer'.length then
        { batch := batchIdx, results := buffer', hasMore := true,
          totalFound := found', totalProcessed := processed' } ::
          ZoneScanner.streamGo limit batchSize rest [] found' processed' (batchIdx + 1)
      else
        ZoneScanner.streamGo limit batchSize rest buffer' found' processed' batchIdx
    else
      ZoneScanner.streamGo limit batchSize rest buffer found processed' batchIdx

/-- All batches one streaming search yields for the given candidate scores,
batch size and resolved limit. -/
def ZoneScanner.searchStreaming (scores : List ℚ) (batchSize limit : Nat) :
    List StreamBatch :=
  ZoneScanner.streamGo limit batchSize scores [] 0 0 1

/-- Results across all yielded batches combined. -/
def totalStreamed (batches : List StreamBatch) : Nat :=
  (batches.map (fun b => b.results.length)).sum

/-! ## Content cache (ZoneScanner.loadNote, src/scanner.ts lines 169-203)

The cache maps a path to the parsed note and the mtimeMs fingerprint
recorded when it was parsed.  loadNote consults the entry of the requested
path; the parser call is the same on the cached and uncached paths, so the
embedding takes it as a parameter. -/

/-- The stat-plus-contents view of the requested file. -/
structure FileOnDisk where
  content : String
  mtimeMs : Int

/-- One cache entry: this.cache and this.cacheTimestamps at one path. -/
structure CacheEntry where
  note : Note
  time : Int

/-- ZoneScanner.loadNote at one path: return the cached note when caching
is on, an entry exists and the current file mtime does not exceed the
recorded fingerprint; otherwise parse the current contents and refresh the
entry.  Returns the note and the cache entry for the path afterwards. -/
def ZoneScanner.loadNote (parse : String → Note) (file : FileOnDisk)
    (entry : Option CacheEntry) (useCache : Bool) : Note × CacheEntry :=
  match useCache, entry with
  | true, some e =>
    if file.mtimeMs ≤ e.time then (e.note, e)
    else
      let note := parse file.content
      (note, { note := note, time := file.mtimeMs })
  | _, _ =>
    let note := parse file.content
    (note, { note := note, time := file.mtimeMs })


/-! ## Concrete inputs used by the evaluations and witnesses -/

/-- A concrete record used to evaluate IndexManager.update. -/
def sampleRec : NoteRec :=
  { path := "notes/a.md", title := "A", tags := ["alpha"], created := 0,
    modified := 0, wordCount := 1, hasActionables := false,
    linkedIssues := [], linkedNotes := [], mtime := 0 }

/-- The exact-title note of the C5 counterexample. -/
def noteExact : Note :=
  { path := "notes/x.md", title := "a b c d e", content := "", tags := [],
    links := [], created := 0, modified := 0 }

/-- The superstring-title note of the C5 counterexample: identical to
noteExact except that its title merely contains the query. -/
def noteSuper : Note :=
  { path := "notes/x.md", title := "a b c d e f", content := "", tags := [],
    links := [], created := 0, modified := 0 }

/-- The C5 counterexample search options: the five-word query. -/
def ceOpts : ZoneSearchOptions := { query := some "a b c d e" }

/-- A concrete note for the C9 witness. -/
def witNote : Note :=
  { path := "notes/w.md", title := "w", content := "", tags := [],
    links := [], created := 0, modified := 0 }

/-- A concrete parser for the C9 witness: it stores the raw text as the
note content. -/
def witParse : String → Note := fun s =>
  { path := "notes/w.md", title := "w", content := s, tags := [],
    links := [], created := 0, modified := 0 }

/-! ## Tag-count lemmas -/

/-- Unfolding tagCount over a cons cell. -/
theorem tagCount_cons (k : String) (v : Nat) (rest : List (String × Nat)) (t : String) :
    tagCount ((k, v) :: rest) t = if t = k then v else tagCount rest t := by
  by_cases h : t = k
  · simp [tagCount, List.lookup, h]
  · have hb : (t == k) = false := by simpa using h
    simp [tagCount, List.lookup, hb, h]

/-- Bumping tag s changes only the count of s, by one. -/
theorem tagCount_tagBump (m : List (String × Nat)) (s t : String) :
    tagCount (tagBump m s) t = tagCount m t + if s = t then 1 else 0 := by
  induction m with
  | nil =>
    by_cases h : s = t
    · simp [tagBump, tagCount_cons, tagCount, List.lookup, h]
    · have h' : ¬ t = s := fun hc => h hc.symm
      show tagCount ((s, 1) :: []) t = tagCount [] t + if s = t then 1 else 0
      rw [tagCount_cons]
      simp [tagCount, List.lookup, h, h']
  | cons kv rest ih =>
    obtain ⟨k, v⟩ := kv
    by_cases hks : k = s
    · subst hks
      by_cases hkt : t = k
      · subst hkt
        simp [tagBump, tagCount_cons]
      · have h' : ¬ k = t := fun hc => hkt hc.symm
        simp [tagBump, tagCount_cons, hkt, h']
    · simp only [tagBump, if_neg hks]
      by_cases hkt : t = k
      · subst hkt
        have h' : ¬ s = t := fun hc => hks (hc ▸ rfl)
        simp [tagCount_cons, h']
      · simp [tagCount_cons, hkt, ih]

/-- Folding tagBump over a tag list adds the occurrence count of t. -/
theorem tagCount_foldl_tagBump (ts : List String) (m : List (String × Nat)) (t : String) :
    tagCount (ts.foldl tagBump m) t = tagCount m t + ts.count t := by
  induction ts generalizing m with
  | nil => simp
  | cons s ts ih =>
    simp only [List.foldl_cons, ih, tagCount_tagBump]
    by_cases h : s = t
    · subst h; simp [List.count_cons]; omega
    · simp [List.count_cons, h, Ne.symm h]

/-- addNoteToIndex preserves the tag-count invariant. -/
theorem tagInvariant_addNoteToIndex (idx : MetadataIndex) (rec : NoteRec)
    (h : tagInvariant idx) : tagInvariant (IndexManager.addNoteToIndex idx rec) := by
  intro t
  simp only [IndexManager.addNoteToIndex, tagCount_foldl_tagBump, h t,
    List.map_append, List.map_cons, List.map_nil, List.sum_append]
  simp

/-- rebuild establishes the tag-count invariant for every corpus. -/
theorem tagInvariant_rebuild (entries : List NoteRec) :
    tagInvariant (IndexManager.rebuild entries) := by
  have main : ∀ (es : List NoteRec) (idx : MetadataIndex), tagInvariant idx →
      tagInvariant (es.foldl IndexManager.addNoteToIndex idx) := by
    intro es
    induction es with
    | nil => intro idx h; exact h
    | cons e es ih =>
      intro idx h
      exact ih _ (tagInvariant_addNoteToIndex idx e h)
  refine main _ emptyIndex ?_
  intro t
  simp [emptyIndex, tagCount, List.lookup]

/-- rebuildTagCounts establishes the tag-count invariant unconditionally. -/
theorem tagInvariant_rebuildTagCounts (idx : MetadataIndex) :
    tagInvariant (IndexManager.rebuildTagCounts idx) := by
  intro t
  have main : ∀ (ns : List NoteRec) (m : List (String × Nat)),
      tagCount (ns.foldl (fun m n => n.tags.foldl tagBump m) m) t =
        tagCount m t + (ns.map (fun n => n.tags.count t)).sum := by
    intro ns
    induction ns with
    | nil => simp
    | cons n ns ih =>
      intro m
      simp only [List.foldl_cons, ih, tagCount_foldl_tagBump, List.map_cons, List.sum_cons]
      omega
  simpa [IndexManager.rebuildTagCounts, tagCount, List.lookup] using main idx.notes []

/-- invalidate preserves the tag-count invariant. -/
theorem tagInvariant_invalidate (idx : MetadataIndex) (paths : List String)
    (h : tagInvariant idx) : tagInvariant (IndexManager.invalidate idx paths) := by
  simp only [IndexManager.invalidate]
  split
  · exact tagInvariant_rebuildTagCounts _
  · rename_i hlen
    rw [not_not] at hlen
    intro t
    rw [List.filter_eq_self.mpr (List.filter_length_eq_length.mp hlen)]
    exact h t

/-! ## Claim C1 -/

/-- Supporting comparison: the persistence the spec describes (write the
temporary file, then rename it over the canonical path) is atomic for the
canonical path whenever the temporary path is distinct from it. -/
theorem specAtomicSaveOps_atomic (indexPath serialized : String)
    (d : List (String × String)) (htmp : indexPath ++ ".tmp" ≠ indexPath) :
    atomicFor indexPath (specAtomicSaveOps indexPath serialized) d serialized := by
  have hb : (indexPath == indexPath ++ ".tmp") = false := by
    simpa using fun hcon => htmp hcon.symm
  have hviews : traceViews indexPath (specAtomicSaveOps indexPath serialized) d =
      [diskGet d indexPath, diskGet d indexPath, serialized, serialized] := by
    simp [specAtomicSaveOps, traceViews, fsOpViews, applyFsOp, if_neg htmp,
      diskGet, List.lookup, hb]
  intro c hc
  rw [hviews] at hc
  simp only [List.mem_cons, List.not_mem_nil, or_false] at hc
  rcases hc with h | h | h | h
  · exact Or.inl h
  · exact Or.inl h
  · exact Or.inr h
  · exact Or.inr h

/-- Claim C1: the save of IndexManager is claimed to be atomic
(temporary-file write followed by a rename of the temporary file over the
canonical index path).  The source (src/index-manager.ts lines 88-93)
writes the temporary file and then writes the canonical path directly a
second time; no rename happens.  Evaluated on the canonical path holding
"OLD" and the serialized index "NEW": the trace is two plain writes, a
concurrent reader of the canonical path can observe the partial contents
"N", and the trace is not an atomic replacement. -/
theorem save_not_atomic_eval :
    IndexManager.saveOps "idx.json" "NEW" =
      [FsOp.write "idx.json.tmp" "NEW", FsOp.write "idx.json" "NEW"] ∧
    "N" ∈ traceViews "idx.json" (IndexManager.saveOps "idx.json" "NEW")
      [("idx.json", "OLD")] ∧
    "N" ≠ "OLD" ∧ "N" ≠ "NEW" ∧
    ¬ atomicFor "idx.json" (IndexManager.saveOps "idx.json" "NEW")
      [("idx.json", "OLD")] "NEW" := by
  refine ⟨by decide, by decide, by decide, by decide, fun h => ?_⟩
  rcases h "N" (by decide) with h' | h' <;> revert h' <;> decide

/-! ## Claim C2 -/

/-- Claim C2: the index rebuilt from the single note notes/a.md carrying
tag alpha satisfies the invariant, but one update of that same unchanged
note leaves the count of alpha at 2 while only one occurrence exists:
update never subtracts the tag counts of the record it replaces
(src/index-manager.ts lines 214-233), so the tag-count invariant fails. -/
theorem update_breaks_tag_invariant :
    tagCount (IndexManager.update (IndexManager.rebuild [sampleRec])
      "notes/a.md" sampleRec).tags "alpha" = 2 ∧
    ((IndexManager.update (IndexManager.rebuild [sampleRec])
      "notes/a.md" sampleRec).notes.map (fun n => n.tags.count "alpha")).sum = 1 ∧
    ¬ tagInvariant (IndexManager.update (IndexManager.rebuild [sampleRec])
      "notes/a.md" sampleRec) := by
  refine ⟨by decide, by decide, fun h => ?_⟩
  have := h "alpha"
  revert this
  decide

/-! ## Claim C4 -/

/-- Claim C4: loading is claimed never to propagate a deserialization
error.  The source (src/index-manager.ts lines 62-74) returns the empty
index only for ENOENT (a missing file) and re-throws every other error, so
a malformed index file makes load propagate the parse error to the caller
instead of falling back. -/
theorem load_propagates_parse_error :
    IndexManager.load (.present (.error "SyntaxError: Unexpected token")) =
      .error "SyntaxError: Unexpected token" ∧
    IndexManager.load .absent = .ok emptyIndex :=
  ⟨rfl, rfl⟩

/-! ## Claim C10 -/

/-- Claim C10: IndexManager.query is read-only: for every loaded index and
every option combination the in-memory index after the call is the index
before the call, and no disk path is written.  The source builds its result
from a spread copy of the records and never assigns the index or calls
save (src/index-manager.ts lines 258-306). -/
theorem query_is_readonly (idx : MetadataIndex) (opts : QueryOptions) :
    (IndexManager.queryOp idx opts).index = idx ∧
    (IndexManager.queryOp idx opts).writes = [] :=
  ⟨rfl, rfl⟩

/-! ## Claim C3 -/

/-- The search loop never processes more candidates than
min(candidate count, limit times 3) once the processed count is still
below that cutoff. -/
theorem searchGo_processed_le (limit total : Nat) (rest : List ℚ) :
    ∀ (results : List ℚ) (p : Nat), p < min total (limit * 3) →
      (ZoneScanner.searchGo limit total rest results p).2 ≤ min total (limit * 3) := by
  induction rest with
  | nil =>
    intro results p hp
    simpa [ZoneScanner.searchGo] using Nat.le_of_lt hp
  | cons s rest ih =>
    intro results p hp
    simp only [ZoneScanner.searchGo]
    split_ifs <;>
      first
        | (dsimp only; omega)
        | (apply ih; omega)

/-- Claim C3 counterexample: with limit 1 and four candidates none of which
scores positively (so the confidence exit never fires), the loop stops
after 3 = min(1 times 3, 4) candidates, not after max(1 times 3, 4) = 4 as
claimed: the fourth candidate is never loaded or scored. -/
theorem search_cutoff_is_min_not_max :
    ZoneScanner.searchProcessedCount [0, 0, 0, 0] 1 = 3 ∧
    ZoneScanner.searchProcessedCount [0, 0, 0, 0] 1 ≠
      max (1 * 3) ([(0 : ℚ), 0, 0, 0].length) := by
  constructor <;> decide

/-- Claim C3 as amended: in a query-present search with a positive resolved
limit, candidate processing stops unconditionally after at most
min(limit times 3, candidate count) candidates (src/scanner.ts line 274),
whatever the scores. -/
theorem search_processed_le_min (scores : List ℚ) (limit : Nat) (h : 1 ≤ limit) :
    ZoneScanner.searchProcessedCount scores limit ≤ min scores.length (limit * 3) := by
  cases scores with
  | nil => simp [ZoneScanner.searchProcessedCount, ZoneScanner.searchGo]
  | cons s rest =>
    apply searchGo_processed_le
    have : 0 < (s :: rest).length := by simp
    simp only [Nat.lt_min]
    omega

/-- Witness for the amended claim C3 at limit 1 and four zero scores. -/
theorem search_processed_le_min_witness :
    1 ≤ 1 ∧ ZoneScanner.searchProcessedCount [0, 0, 0, 0] 1 ≤
      min ([(0 : ℚ), 0, 0, 0].length) (1 * 3) :=
  ⟨by decide, search_processed_le_min [0, 0, 0, 0] 1 (by decide)⟩

/-! ## Claim C7 -/

/-- The records of a rebuilt index are exactly the scanned entries in scan
order. -/
theorem rebuild_notes (entries : List NoteRec) :
    (IndexManager.rebuild entries).notes = entries := by
  have main : ∀ (es : List NoteRec) (idx : MetadataIndex),
      (es.foldl IndexManager.addNoteToIndex idx).notes = idx.notes ++ es := by
    intro es
    induction es with
    | nil => intro idx; simp
    | cons e es ih =>
      intro idx
      rw [List.foldl_cons, ih]
      simp [IndexManager.addNoteToIndex]
  simpa [emptyIndex] using main entries emptyIndex

/-- Appending-zone form of the any-file-newer test over the scanned
entries. -/
theorem scannedEntries_any_newer (cNow : Corpus) (t : Int) :
    (scannedEntries cNow).any (fun r => decide (t < r.mtime)) =
      ((match cNow.scratchpad with
        | some r => decide (t < r.mtime)
        | none => false)
      || cNow.inbox.any (fun r => decide (t < r.mtime))
      || cNow.notes.any (fun r => decide (t < r.mtime))
      || cNow.daily.any (fun r => decide (t < r.mtime))
      || cNow.maps.any (fun r => decide (t < r.mtime))) := by
  obtain ⟨sp, inb, nts, dly, mps, arc⟩ := cNow
  cases sp <;> simp [scannedEntries, List.any_append, Bool.or_assoc]

/-- Claim C7: staleness after a rebuild is exactly consistent with the file
times.  Rebuilding over corpus c and then asking isStale against the
current corpus cNow and the last-write time t of the index file answers true
precisely when the rebuild scanned nothing (empty index) or some currently
scanned file has a modification time newer than t.  In particular, making
any single rebuild-scanned file newer than the index makes isStale true. -/
theorem isStale_after_rebuild_iff (c cNow : Corpus) (t : Int) :
    IndexManager.isStale (IndexManager.rebuildFrom c) cNow t =
      ((scannedEntries c).isEmpty ||
        (scannedEntries cNow).any (fun r => decide (t < r.mtime))) := by
  simp only [IndexManager.isStale, IndexManager.rebuildFrom, rebuild_notes]
  by_cases hempty : (scannedEntries c).length = 0
  · have hnil : scannedEntries c = [] := List.length_eq_zero.mp hempty
    simp [hempty, hnil]
  · have hne : scannedEntries c ≠ [] := fun hc => hempty (by simp [hc])
    have hfalse : (scannedEntries c).isEmpty = false := by
      cases hl : scannedEntries c with
      | nil => exact absurd hl hne
      | cons a l => rfl
    rw [if_neg hempty, hfalse, Bool.false_or, scannedEntries_any_newer]

/-! ## Claim C9 -/

/-- Claim C9: the cached load is observationally an uncached load whenever
the file changed.  When the current file mtime is strictly newer than
the fingerprint stored with the cache entry, loadNote with caching ignores
the entry, returns exactly the parse of the current on-disk contents, and
behaves as the cache-free call. -/
theorem loadNote_fresh_when_modified (parse : String → Note) (file : FileOnDisk)
    (e : CacheEntry) (h : e.time < file.mtimeMs) :
    (ZoneScanner.loadNote parse file (some e) true).1 = parse file.content ∧
    ZoneScanner.loadNote parse file (some e) true =
      ZoneScanner.loadNote parse file none true := by
  have hle : ¬ file.mtimeMs ≤ e.time := not_le.mpr h
  constructor <;> simp [ZoneScanner.loadNote, hle]

/-- Witness for claim C9: a file cached at fingerprint 3 and since
modified at time 5 is re-parsed from its current contents. -/
theorem loadNote_fresh_when_modified_witness :
    (3 : Int) < 5 ∧
    ((ZoneScanner.loadNote witParse ⟨"body", 5⟩ (some ⟨witNote, 3⟩) true).1 =
        witParse "body" ∧
      ZoneScanner.loadNote witParse ⟨"body", 5⟩ (some ⟨witNote, 3⟩) true =
        ZoneScanner.loadNote witParse ⟨"body", 5⟩ none true) :=
  ⟨by decide, loadNote_fresh_when_modified witParse ⟨"body", 5⟩ ⟨witNote, 3⟩ (by decide)⟩

/-! ## Claim C8 -/

/-- Invariant of the streaming loop: from a running total found strictly
below the limit, the results still to be yielded (including the current
buffer) number at most limit - found plus the buffer size. -/
theorem streamGo_total_le (limit batchSize : Nat) (rest : List ℚ) :
    ∀ (buffer : List ℚ) (found processed batchIdx : Nat), found < limit →
      totalStreamed (ZoneScanner.streamGo limit batchSize rest buffer found processed batchIdx) ≤
        (limit - found) + buffer.length := by
  induction rest with
  | nil =>
    intro buffer found processed batchIdx hf
    by_cases hb : buffer.isEmpty <;>
      simp [ZoneScanner.streamGo, hb, totalStreamed]
  | cons s rest ih =>
    intro buffer found processed batchIdx hf
    simp only [ZoneScanner.streamGo]
    split_ifs with h1 h2 h3
    · simp [totalStreamed]
      omega
    · have := ih [] (found + 1) (processed + 1) (batchIdx + 1) (by omega)
      simp only [totalStreamed, List.map_cons, List.sum_cons] at this ⊢
      simp only [List.length_nil] at this
      have hlen : (buffer ++ [s]).length = buffer.length + 1 := by simp
      omega
    · have := ih (buffer ++ [s]) (found + 1) (processed + 1) batchIdx (by omega)
      have hlen : (buffer ++ [s]).length = buffer.length + 1 := by simp
      omega
    · exact le_trans (ih buffer found (processed + 1) batchIdx hf) (by omega)

/-- Claim C8 (the streaming search is modelled from the spec; its generator
is absent from the sources): across all yielded batches combined, the
result count of a streaming search never exceeds the positive resolved
limit, for every candidate pool, every batch size, and every point at
which the caller stops consuming (stopping earlier only drops batches). -/
theorem streaming_total_le_limit (scores : List ℚ) (batchSize limit : Nat)
    (h : 1 ≤ limit) :
    totalStreamed (ZoneScanner.searchStreaming scores batchSize limit) ≤ limit := by
  have := streamGo_total_le limit batchSize scores [] 0 0 1 (by omega)
  simpa [ZoneScanner.searchStreaming] using this

/-- Witness for claim C8: three unit-scoring candidates, batch size 1,
limit 1. -/
theorem streaming_total_le_limit_witness :
    1 ≤ 1 ∧ totalStreamed (ZoneScanner.searchStreaming [1, 1, 1] 1 1) ≤ 1 :=
  ⟨by decide, streaming_total_le_limit [1, 1, 1] 1 1 (by decide)⟩

/-! ## Claim C6 -/

/-- Claim C6: with a non-empty tag list, the all-of tag filter returns
exactly the scanned records whose tag set contains every query tag, the
any-of filter returns exactly those whose tag set meets some query tag
(ZoneScanner.listByTags, src/scanner.ts lines 331-337), and the index
query with only tags set returns exactly the fingerprint-stripped records
containing every query tag (IndexManager.query, src/index-manager.ts
lines 282-287); no record is included or excluded otherwise. -/
theorem tag_filter_exact (metadata : List NoteMeta) (idx : MetadataIndex)
    (tags : List String) (sb : SortKey) (hne : tags ≠ []) :
    (∀ m, m ∈ ZoneScanner.listByTags metadata tags .allOf sb ↔
        m ∈ metadata ∧ ∀ t ∈ tags, t ∈ m.tags) ∧
    (∀ m, m ∈ ZoneScanner.listByTags metadata tags .anyOf sb ↔
        m ∈ metadata ∧ ∃ t ∈ tags, t ∈ m.tags) ∧
    (∀ m, m ∈ IndexManager.query idx { tags := some tags } ↔
        ∃ rec ∈ idx.notes, stripMtime rec = m ∧ ∀ t ∈ tags, t ∈ rec.tags) := by
  have hlen : 0 < tags.length := List.length_pos.mpr hne
  refine ⟨fun m => ?_, fun m => ?_, fun m => ?_⟩
  · rw [ZoneScanner.listByTags, (List.mergeSort_perm _ (sortKeyLe sb)).mem_iff]
    simp [List.mem_filter]
  · rw [ZoneScanner.listByTags, (List.mergeSort_perm _ (sortKeyLe sb)).mem_iff]
    simp [List.mem_filter]
  · rw [IndexManager.query]
    simp only [if_pos hlen]
    rw [List.mem_map]
    constructor
    · rintro ⟨rec, hrec, hstrip⟩
      rw [(List.mergeSort_perm _ _).mem_iff, List.mem_filter] at hrec
      refine ⟨rec, hrec.1, hstrip, ?_⟩
      have := hrec.2
      simpa using this
    · rintro ⟨rec, hrec, hstrip, htags⟩
      refine ⟨rec, ?_, hstrip⟩
      rw [(List.mergeSort_perm _ _).mem_iff, List.mem_filter]
      exact ⟨hrec, by simpa using htags⟩

/-- Witness for claim C6 at a one-element metadata list, a one-record
index and the singleton tag list alpha. -/
theorem tag_filter_exact_witness :
    (["alpha"] : List String) ≠ [] ∧
    ((∀ m, m ∈ ZoneScanner.listByTags [stripMtime sampleRec] ["alpha"] .allOf .modified ↔
        m ∈ [stripMtime sampleRec] ∧ ∀ t ∈ ["alpha"], t ∈ m.tags) ∧
      (∀ m, m ∈ ZoneScanner.listByTags [stripMtime sampleRec] ["alpha"] .anyOf .modified ↔
        m ∈ [stripMtime sampleRec] ∧ ∃ t ∈ ["alpha"], t ∈ m.tags) ∧
      (∀ m, m ∈ IndexManager.query (IndexManager.rebuild [sampleRec]) { tags := some ["alpha"] } ↔
        ∃ rec ∈ (IndexManager.rebuild [sampleRec]).notes, stripMtime rec = m ∧
          ∀ t ∈ ["alpha"], t ∈ rec.tags)) :=
  ⟨by decide,
   tag_filter_exact [stripMtime sampleRec] (IndexManager.rebuild [sampleRec])
     ["alpha"] .modified (by decide)⟩

/-! ## Claim C5 -/

/-- Two notes that differ only in their title compare under
scoreNoteEnhanced exactly as their title components compare: the tag,
content, zone and recency components coincide and cancel. -/
theorem scoreNoteEnhanced_lt_iff_title (now : Int) (A B : Note)
    (opts : ZoneSearchOptions) (q : String) (hq : opts.query = some q)
    (hpath : A.path = B.path) (hcontent : A.content = B.content)
    (htags : A.tags = B.tags) (hmod : A.modified = B.modified) :
    ((ZoneScanner.scoreNoteEnhanced now A opts).1 <
        (ZoneScanner.scoreNoteEnhanced now B opts).1 ↔
      titleScoreOf (lowerStr A.title) (lowerStr q) <
        titleScoreOf (lowerStr B.title) (lowerStr q)) := by
  simp only [ZoneScanner.scoreNoteEnhanced, hq, hpath, hcontent, htags, hmod]
  constructor <;> intro h <;> linarith

/-- The title component of an exact lowercase title match. -/
theorem titleScoreOf_exact (titleLower queryLower : String)
    (h : titleLower = queryLower) :
    titleScoreOf titleLower queryLower = 200 := by
  rw [titleScoreOf, if_pos h]

/-- The title component of a containing, non-equal title is 50 per matched
whole query word, or 25 without any. -/
theorem titleScoreOf_substr (titleLower queryLower : String)
    (hne : titleLower ≠ queryLower)
    (hinc : strIncludes titleLower queryLower = true) :
    titleScoreOf titleLower queryLower =
      (if 0 < ((splitWs queryLower).filter
          (fun qw => (splitWs titleLower).contains qw)).length then
        (((splitWs queryLower).filter
          (fun qw => (splitWs titleLower).contains qw)).length : ℚ) * 50
      else 50 / 2) := by
  rw [titleScoreOf, if_neg hne, if_pos hinc]

/-- Claim C5 counterexample: for the five-word query a b c d e, the note
titled a b c d e f (which merely contains the query as a substring and is
not equal to it) outscores the note titled exactly a b c d e, all else
equal: five whole-word title matches earn 250, an exact title match only
200.  The claim that the exact-title note always scores strictly higher is
therefore false. -/
theorem exact_title_outscored :
    lowerStr noteExact.title = lowerStr "a b c d e" ∧
    strIncludes (lowerStr noteSuper.title) (lowerStr "a b c d e") = true ∧
    lowerStr noteSuper.title ≠ lowerStr "a b c d e" ∧
    (ZoneScanner.scoreNoteEnhanced 0 noteExact ceOpts).1 <
      (ZoneScanner.scoreNoteEnhanced 0 noteSuper ceOpts).1 := by
  refine ⟨by decide, by decide, by decide, ?_⟩
  rw [scoreNoteEnhanced_lt_iff_title 0 noteExact noteSuper ceOpts "a b c d e"
    rfl rfl rfl rfl rfl]
  rw [titleScoreOf_exact _ _ (by decide)]
  rw [titleScoreOf_substr _ _ (by decide) (by decide)]
  have hlen : ((splitWs (lowerStr "a b c d e")).filter
      (fun qw => (splitWs (lowerStr noteSuper.title)).contains qw)).length = 5 := by
    decide
  rw [hlen]
  norm_num

/-- Claim C5 as amended: for notes A and B identical except for their
titles, where the title of A equals the query case-insensitively and the
title of B merely contains it as a substring without being equal, A scores
strictly higher than B provided fewer than four query words occur verbatim
among the title words of B.  (With four or more whole-word matches the bonus
of 50 reaches the exact-match bonus of 200, as the counterexample shows.) -/
theorem exact_title_beats_substr (now : Int) (q : String) (A B : Note)
    (opts : ZoneSearchOptions) (hq : opts.query = some q)
    (hpath : A.path = B.path) (hcontent : A.content = B.content)
    (htags : A.tags = B.tags) (_hlinks : A.links = B.links)
    (_hcreated : A.created = B.created) (hmod : A.modified = B.modified)
    (hA : lowerStr A.title = lowerStr q)
    (hBinc : strIncludes (lowerStr B.title) (lowerStr q) = true)
    (hBne : lowerStr B.title ≠ lowerStr q)
    (hwm : ((splitWs (lowerStr q)).filter
        (fun qw => (splitWs (lowerStr B.title)).contains qw)).length ≤ 3) :
    (ZoneScanner.scoreNoteEnhanced now B opts).1 <
      (ZoneScanner.scoreNoteEnhanced now A opts).1 := by
  rw [scoreNoteEnhanced_lt_iff_title now B A opts q hq hpath.symm hcontent.symm
    htags.symm hmod.symm]
  rw [titleScoreOf_exact _ _ hA, titleScoreOf_substr _ _ hBne hBinc]
  split_ifs with hpos
  · have hc : ((((splitWs (lowerStr q)).filter
        (fun qw => (splitWs (lowerStr B.title)).contains qw)).length : ℚ)) ≤ 3 := by
      exact_mod_cast hwm
    nlinarith
  · norm_num

/-- Witness for the amended claim C5: scenario 3 of the spec, the
one-word query widgets against the titles Widgets (exact) and
Widgets Overview (substring, one whole-word match). -/
theorem exact_title_beats_substr_witness :
    (ZoneScanner.scoreNoteEnhanced 0
        { path := "notes/b.md", title := "Widgets Overview", content := "",
          tags := [], links := [], created := 0, modified := 0 }
        { query := some "Widgets" }).1 <
      (ZoneScanner.scoreNoteEnhanced 0
        { path := "notes/b.md", title := "Widgets", content := "",
          tags := [], links := [], created := 0, modified := 0 }
        { query := some "Widgets" }).1 :=
  exact_title_beats_substr 0 "Widgets"
    { path := "notes/b.md", title := "Widgets", content := "",
      tags := [], links := [], created := 0, modified := 0 }
    { path := "notes/b.md", title := "Widgets Overview", content := "",
      tags := [], links := [], created := 0, modified := 0 }
    { query := some "Widgets" } rfl rfl rfl rfl rfl rfl rfl
    (by decide) (by decide) (by decide) (by decide)
